import Mathlib

/-!
Verification of the Mercury-230 polling library (protocol codec, energy
decoding and the exchange engine) against its natural-language specification.

The development is a shallow embedding of the Python sources:
* `src/mercury230/protocol.py` — `crc16_modbus`, `build_frame`, `parse_frame`;
* `src/mercury230/client.py` — `_exchange`, `open_session`,
  `_decode_energy_value`, `_read_energy_register`,
  `_read_energy_profile_group`, `read_energy_for_month`,
  `read_energy_all_months`, `_parse_build_date`.

Byte strings are modelled as `List Nat` whose entries are below 256; machine
integers are `Nat` with explicit `% 2 ^ w` / masking where the source masks.
Fallible code returns `Except`; the stateful client is modelled as explicit
state passing over a transport-interaction state.
-/

namespace Mercury230

/-! ## CRC16/Modbus (src/mercury230/protocol.py, `crc16_modbus`)

The source keeps a register `crc`, initially `0xFFFF`; for each input byte it
XORs the byte into the register and runs 8 shift iterations:
`if crc & 1: crc = (crc >> 1) ^ 0xA001 else: crc >>= 1`; the final result is
`crc & 0xFFFF`. -/

/-- One shift iteration of the source's inner loop:
`crc = (crc >> 1) ^ 0xA001` when the low bit is set, else `crc >>= 1`. -/
def crcStep (crc : Nat) : Nat :=
  if crc &&& 1 = 1 then (crc >>> 1) ^^^ 0xA001 else crc >>> 1

/-- `n` repetitions of `crcStep` (the source's `for _ in range(8)` uses 8). -/
def crcRounds : Nat → Nat → Nat
  | 0, crc => crc
  | n + 1, crc => crcRounds n (crcStep crc)

/-- Processing of one input byte: `crc ^= byte` followed by 8 shift
iterations. -/
def crcProcessByte (crc byte : Nat) : Nat :=
  crcRounds 8 (crc ^^^ byte)

/-- `crc16_modbus(data)` from `protocol.py`: fold `crcProcessByte` over the
input starting from `0xFFFF`, returning `crc & 0xFFFF`. -/
def crc16_modbus (data : List Nat) : Nat :=
  (data.foldl crcProcessByte 0xFFFF) &&& 0xFFFF

/-! ### Reference CRC, written from the spec's words

"standard table-free bit-shift CRC, polynomial 0xA001 reflected, init 0xFFFF,
8 iterations per input byte, lsb-first shift".  The shift is expressed
arithmetically (`% 2` / `/ 2`) and the 8 iterations as a fold over
`List.range 8`, so that agreement with the source's bitwise form is a real
statement. -/

/-- One lsb-first shift iteration of the reference algorithm. -/
def crc16_reference_step (crc : Nat) : Nat :=
  if crc % 2 = 1 then (crc / 2) ^^^ 0xA001 else crc / 2

/-- Reference CRC-16/Modbus: init 0xFFFF, per byte XOR the byte in and run 8
lsb-first shift iterations. -/
def crc16_reference (data : List Nat) : Nat :=
  data.foldl
    (fun crc byte =>
      (List.range 8).foldl (fun c _ => crc16_reference_step c) (crc ^^^ byte))
    0xFFFF

theorem crcStep_eq_reference_step (crc : Nat) :
    crcStep crc = crc16_reference_step crc := by
  unfold crcStep crc16_reference_step
  rw [Nat.and_one_is_mod, Nat.shiftRight_one]

theorem crcRounds_eight (crc : Nat) :
    crcRounds 8 crc = (List.range 8).foldl (fun c _ => crc16_reference_step c) crc := by
  simp [crcRounds, crcStep_eq_reference_step, List.range_succ]

/-! ### CRC state bounds -/

theorem crcStep_lt (crc : Nat) (h : crc < 65536) : crcStep crc < 65536 := by
  unfold crcStep
  have h2 : crc >>> 1 < 32768 := by
    rw [Nat.shiftRight_one]
    omega
  split
  · exact Nat.xor_lt_two_pow (n := 16) (by omega) (by norm_num)
  · omega

theorem crcRounds_lt (n : Nat) : ∀ crc, crc < 65536 → crcRounds n crc < 65536 := by
  induction n with
  | zero => intro crc h; exact h
  | succ n ih => intro crc h; exact ih _ (crcStep_lt crc h)

theorem crcProcessByte_lt (crc byte : Nat) (hc : crc < 65536) (hb : byte ≤ 255) :
    crcProcessByte crc byte < 65536 := by
  unfold crcProcessByte
  exact crcRounds_lt 8 _ (Nat.xor_lt_two_pow (n := 16) hc (by omega))

theorem crcFold_lt (data : List Nat) :
    ∀ crc, crc < 65536 → (∀ b ∈ data, b ≤ 255) →
      data.foldl crcProcessByte crc < 65536 := by
  induction data with
  | nil => intro crc h _; exact h
  | cons b rest ih =>
      intro crc h hb
      exact ih _ (crcProcessByte_lt crc b h (hb b (List.mem_cons_self b rest)))
        (fun x hx => hb x (List.mem_cons_of_mem b hx))

theorem crc16_modbus_le (data : List Nat) : crc16_modbus data ≤ 65535 :=
  Nat.and_le_right

/-- Under the 16-bit state invariant the final `& 0xFFFF` is the identity. -/
theorem mask_eq_of_lt (x : Nat) (h : x < 65536) : x &&& 0xFFFF = x := by
  have : x &&& 2 ^ 16 - 1 = x % 2 ^ 16 := Nat.and_pow_two_sub_one_eq_mod x 16
  norm_num at this
  rw [this]
  exact Nat.mod_eq_of_lt h

theorem crc16_modbus_eq_reference (data : List Nat) (h : ∀ b ∈ data, b ≤ 255) :
    crc16_modbus data = crc16_reference data := by
  unfold crc16_modbus crc16_reference
  rw [mask_eq_of_lt _ (crcFold_lt data 0xFFFF (by norm_num) h)]
  have hfun : crcProcessByte =
      fun crc byte =>
        (List.range 8).foldl (fun c _ => crc16_reference_step c) (crc ^^^ byte) := by
    funext c b
    exact crcRounds_eight (c ^^^ b)
  rw [hfun]

/-! ## Frame codec (src/mercury230/protocol.py)

A frame is `[address][command][data...][crc_lo][crc_hi]`.  `MercuryProtocolError`
is the only error `parse_frame` raises; its constructors carry exactly the data
the Python messages interpolate. -/

/-- The failure cases of `MercuryProtocolError` raised by the codec and the
client.  `custom` carries an already-formatted message (used by the client for
"empty payload" / "short energy payload" / "energy block" errors). -/
inductive ProtocolError where
  | tooShort : ProtocolError
  | badCrc (got expected : Nat) : ProtocolError
  | unexpectedAddress (got expected : Nat) : ProtocolError
  | custom (msg : String) : ProtocolError
deriving DecidableEq, Repr

/-- `build_frame` body and appended little-endian checksum, for arguments the
source accepts (`bytes([address, command]) + data`, then
`crc.to_bytes(2, "little")`). -/
def build_frame (address command : Nat) (data : List Nat) : List Nat :=
  (address :: command :: data) ++
    [crc16_modbus (address :: command :: data) % 256,
     crc16_modbus (address :: command :: data) / 256 % 256]

/-- `build_frame` with the source's argument validation: `ValueError` (carried
as a message) when address or command is outside 0..255.  The `0 <=` halves of
the Python checks are vacuous for `Nat`. -/
def build_frameE (address command : Nat) (data : List Nat) :
    Except String (List Nat) :=
  if 255 < address then .error "address must be 0..255"
  else if 255 < command then .error "command must be 0..255"
  else .ok (build_frame address command data)

/-- `frame[:-2]`: everything before the two checksum bytes. -/
def frameBody (frame : List Nat) : List Nat :=
  frame.take (frame.length - 2)

/-- `int.from_bytes(frame[-2:], "little")` for a frame of length ≥ 4. -/
def frameReceivedCrc (frame : List Nat) : Nat :=
  (frame.drop (frame.length - 2)).getD 0 0 +
    256 * (frame.drop (frame.length - 2)).getD 1 0

/-- `parse_frame(frame, expected_address)` from `protocol.py`: length check,
then checksum check, then optional address check; on success the triple
`(frame[0], frame[1], frame[2:-2])`. -/
def parse_frame (frame : List Nat) (expected_address : Option Nat) :
    Except ProtocolError (Nat × Nat × List Nat) :=
  if frame.length < 4 then .error .tooShort
  else if frameReceivedCrc frame ≠ crc16_modbus (frameBody frame) then
    .error (.badCrc (frameReceivedCrc frame) (crc16_modbus (frameBody frame)))
  else
    match expected_address with
    | some expected =>
        if frame.getD 0 0 ≠ expected then
          .error (.unexpectedAddress (frame.getD 0 0) expected)
        else .ok (frame.getD 0 0, frame.getD 1 0, (frameBody frame).drop 2)
    | none => .ok (frame.getD 0 0, frame.getD 1 0, (frameBody frame).drop 2)

theorem build_frame_length (address command : Nat) (data : List Nat) :
    (build_frame address command data).length = data.length + 4 := by
  simp [build_frame]

/-- The two appended bytes reassemble to the body's CRC. -/
theorem crc_bytes_le (crc : Nat) (h : crc ≤ 65535) :
    crc % 256 + 256 * (crc / 256 % 256) = crc := by
  have h1 : crc / 256 < 256 := by omega
  rw [Nat.mod_eq_of_lt h1]
  omega

theorem frameBody_build_frame (address command : Nat) (data : List Nat) :
    frameBody (build_frame address command data) = address :: command :: data := by
  have hsub : (build_frame address command data).length - 2 =
      (address :: command :: data).length := by
    rw [build_frame_length]; simp
  rw [frameBody, hsub, build_frame, List.take_left]

theorem frameReceivedCrc_build_frame (address command : Nat) (data : List Nat) :
    frameReceivedCrc (build_frame address command data) =
      crc16_modbus (address :: command :: data) := by
  have hsub : (build_frame address command data).length - 2 =
      (address :: command :: data).length := by
    rw [build_frame_length]; simp
  rw [frameReceivedCrc, hsub, build_frame, List.drop_left]
  simp only [List.getD_cons_zero, List.getD_cons_succ]
  exact crc_bytes_le _ (crc16_modbus_le _)

/-! ### CRC algebra: or/add conversion, residue of a checksummed frame,
injectivity of the shift iteration -/

/-- Bitwise-or of a shifted value with a small value is addition. -/
theorem shiftLeft_or_eq_add (a b n : Nat) (hb : b < 2 ^ n) :
    (a <<< n) ||| b = a * 2 ^ n + b := by
  apply Nat.eq_of_testBit_eq
  intro i
  rw [Nat.testBit_lor, Nat.testBit_shiftLeft, Nat.mul_comm,
    Nat.testBit_mul_pow_two_add a hb i]
  by_cases h : i < n
  · simp [h, Nat.not_le.mpr h]
  · have hbi : b.testBit i = false :=
      Nat.testBit_lt_two_pow (lt_of_lt_of_le hb (Nat.pow_le_pow_right (by norm_num) (Nat.not_lt.mp h)))
    simp [h, Nat.not_lt.mp h, hbi]

/-- XORing a 16-bit state with its own low byte clears the low byte. -/
theorem xor_low_byte_clear_pow (q r : Nat) (hr : r < 2 ^ 8) :
    (2 ^ 8 * q + r) ^^^ r = 2 ^ 8 * q := by
  apply Nat.eq_of_testBit_eq
  intro i
  have hq : (2 : Nat) ^ 8 * q = 2 ^ 8 * q + 0 := by ring
  rw [Nat.testBit_xor, Nat.testBit_mul_pow_two_add q hr i, hq,
    Nat.testBit_mul_pow_two_add q (by norm_num) i]
  by_cases h : i < 8
  · simp [h]
  · have hri : r.testBit i = false :=
      Nat.testBit_lt_two_pow
        (lt_of_lt_of_le hr (Nat.pow_le_pow_right (by norm_num) (Nat.not_lt.mp h)))
    simp [h, hri]

theorem xor_low_byte_clear (q r : Nat) (hr : r < 256) :
    (256 * q + r) ^^^ r = 256 * q := by
  have e : (2 : Nat) ^ 8 = 256 := by norm_num
  have h := xor_low_byte_clear_pow q r (by simpa [e] using hr)
  rwa [e] at h

/-- The shift iteration halves an even state. -/
theorem crcStep_double (x : Nat) : crcStep (2 * x) = x := by
  unfold crcStep
  rw [Nat.and_one_is_mod, Nat.shiftRight_one]
  simp [Nat.mul_mod_right]

/-- `k` shift iterations divide out `2 ^ k` from a low-zero state. -/
theorem crcRounds_two_pow_mul (k : Nat) : ∀ h, crcRounds k (2 ^ k * h) = h := by
  induction k with
  | zero => intro h; simp [crcRounds]
  | succ k ih =>
      intro h
      have : (2 : Nat) ^ (k + 1) * h = 2 * (2 ^ k * h) := by ring
      rw [crcRounds, this, crcStep_double, ih]

theorem crcRounds_zero : crcRounds 8 0 = 0 := by decide

/-- Left inverse of `crcStep` on 16-bit states. -/
def crcStepInv (o : Nat) : Nat :=
  if o < 32768 then 2 * o else 2 * (o ^^^ 0xA001) + 1

theorem crcStepInv_crcStep (s : Nat) (h : s < 65536) :
    crcStepInv (crcStep s) = s := by
  unfold crcStep
  rw [Nat.and_one_is_mod, Nat.shiftRight_one]
  rcases Nat.mod_two_eq_zero_or_one s with hpar | hpar
  · rw [hpar, if_neg (by norm_num), crcStepInv, if_pos (by omega)]
    omega
  · rw [hpar, if_pos rfl]
    have hhi : ¬ (s / 2) ^^^ 0xA001 < 32768 := by
      intro hlt
      have hb : ((s / 2) ^^^ 0xA001).testBit 15 = false :=
        Nat.testBit_lt_two_pow (by norm_num at hlt ⊢; omega)
      rw [Nat.testBit_xor, Nat.testBit_lt_two_pow (x := s / 2) (by norm_num; omega)] at hb
      simp at hb
      exact absurd hb (by decide)
    rw [crcStepInv, if_neg hhi, Nat.xor_cancel_right]
    omega

theorem crcStep_inj (s t : Nat) (hs : s < 65536) (ht : t < 65536)
    (he : crcStep s = crcStep t) : s = t := by
  have := congrArg crcStepInv he
  rwa [crcStepInv_crcStep s hs, crcStepInv_crcStep t ht] at this

theorem crcRounds_inj (n : Nat) : ∀ s t, s < 65536 → t < 65536 →
    crcRounds n s = crcRounds n t → s = t := by
  induction n with
  | zero => intro s t _ _ he; exact he
  | succ n ih =>
      intro s t hs ht he
      exact crcStep_inj s t hs ht
        (ih _ _ (crcStep_lt s hs) (crcStep_lt t ht) he)

theorem crcProcessByte_inj (s t b : Nat) (hs : s < 65536) (ht : t < 65536)
    (hb : b ≤ 255) (he : crcProcessByte s b = crcProcessByte t b) : s = t := by
  have hx := crcRounds_inj 8 (s ^^^ b) (t ^^^ b)
    (Nat.xor_lt_two_pow (n := 16) hs (by omega))
    (Nat.xor_lt_two_pow (n := 16) ht (by omega)) he
  have := congrArg (fun z => z ^^^ b) hx
  simpa [Nat.xor_cancel_right] using this

theorem crcFold_inj (l : List Nat) (hl : ∀ b ∈ l, b ≤ 255) :
    ∀ s t, s < 65536 → t < 65536 → s ≠ t →
      l.foldl crcProcessByte s ≠ l.foldl crcProcessByte t := by
  induction l with
  | nil => intro s t _ _ hne; exact hne
  | cons b rest ih =>
      intro s t hs ht hne
      have hb : b ≤ 255 := hl b (List.mem_cons_self b rest)
      simp only [List.foldl_cons]
      exact ih (fun x hx => hl x (List.mem_cons_of_mem b hx))
        (crcProcessByte s b) (crcProcessByte t b)
        (crcProcessByte_lt s b hs hb) (crcProcessByte_lt t b ht hb)
        (fun he => hne (crcProcessByte_inj s t b hs ht hb he))

/-- Changing a single byte of the input changes the CRC. -/
theorem crc16_modbus_ne_of_byte_ne (p s : List Nat) (x y : Nat)
    (hp : ∀ b ∈ p, b ≤ 255) (hs : ∀ b ∈ s, b ≤ 255)
    (hx : x ≤ 255) (hy : y ≤ 255) (hxy : x ≠ y) :
    crc16_modbus (p ++ x :: s) ≠ crc16_modbus (p ++ y :: s) := by
  have hst : p.foldl crcProcessByte 0xFFFF < 65536 :=
    crcFold_lt p 0xFFFF (by norm_num) hp
  have hbytes : ∀ z, z ≤ 255 → ∀ b ∈ p ++ z :: s, b ≤ 255 := by
    intro z hz b hb
    rcases List.mem_append.mp hb with h | h
    · exact hp b h
    · rcases List.mem_cons.mp h with h' | h'
      · exact h' ▸ hz
      · exact hs b h'
  have hbranch : crcProcessByte (p.foldl crcProcessByte 0xFFFF) x ≠
      crcProcessByte (p.foldl crcProcessByte 0xFFFF) y := by
    intro he
    have hxorEq : p.foldl crcProcessByte 0xFFFF ^^^ x =
        p.foldl crcProcessByte 0xFFFF ^^^ y :=
      crcRounds_inj 8 _ _ (Nat.xor_lt_two_pow (n := 16) hst (by omega))
        (Nat.xor_lt_two_pow (n := 16) hst (by omega)) he
    have h2 := congrArg (fun z => p.foldl crcProcessByte 0xFFFF ^^^ z) hxorEq
    simp only [Nat.xor_cancel_left] at h2
    exact hxy h2
  intro hcontra
  have hx16 : (p ++ x :: s).foldl crcProcessByte 0xFFFF < 65536 :=
    crcFold_lt _ 0xFFFF (by norm_num) (hbytes x hx)
  have hy16 : (p ++ y :: s).foldl crcProcessByte 0xFFFF < 65536 :=
    crcFold_lt _ 0xFFFF (by norm_num) (hbytes y hy)
  unfold crc16_modbus at hcontra
  rw [mask_eq_of_lt _ hx16, mask_eq_of_lt _ hy16, List.foldl_append,
    List.foldl_append, List.foldl_cons, List.foldl_cons] at hcontra
  exact crcFold_inj s hs _ _
    (crcProcessByte_lt _ x hst hx) (crcProcessByte_lt _ y hst hy)
    hbranch hcontra

/-- Round-trip of the codec: parsing a built frame under the frame's own
address recovers address, command and data unchanged. -/
theorem parse_frame_build_frame (address command : Nat) (data : List Nat) :
    parse_frame (build_frame address command data) (some address) =
      .ok (address, command, data) := by
  have h0 : (build_frame address command data).getD 0 0 = address := rfl
  have h1 : (build_frame address command data).getD 1 0 = command := rfl
  rw [parse_frame, if_neg (by rw [build_frame_length]; omega),
    frameReceivedCrc_build_frame, frameBody_build_frame]
  simp only [ne_eq, not_true_eq_false, if_false, ite_false, h0, h1,
    frameBody_build_frame]
  simp

theorem body_bytes_le (a c : Nat) (d : List Nat) (ha : a ≤ 255) (hc : c ≤ 255)
    (hd : ∀ b ∈ d, b ≤ 255) : ∀ b ∈ (a :: c :: d), b ≤ 255 := by
  intro b hb
  rcases List.mem_cons.mp hb with h | h
  · exact h ▸ ha
  · rcases List.mem_cons.mp h with h' | h'
    · exact h' ▸ hc
    · exact hd b h'

/-- Zero residue: running the CRC over a body together with its appended
little-endian checksum yields 0. -/
theorem crc16_modbus_build_frame_eq_zero (a c : Nat) (d : List Nat)
    (ha : a ≤ 255) (hc : c ≤ 255) (hd : ∀ b ∈ d, b ≤ 255) :
    crc16_modbus (build_frame a c d) = 0 := by
  have hbody := body_bytes_le a c d ha hc hd
  have hstlt : (a :: c :: d).foldl crcProcessByte 0xFFFF < 65536 :=
    crcFold_lt _ 0xFFFF (by norm_num) hbody
  have hcrc : crc16_modbus (a :: c :: d) =
      (a :: c :: d).foldl crcProcessByte 0xFFFF := by
    unfold crc16_modbus
    exact mask_eq_of_lt _ hstlt
  generalize hS : (a :: c :: d).foldl crcProcessByte 0xFFFF = S at hstlt hcrc
  unfold build_frame
  rw [hcrc]
  unfold crc16_modbus
  rw [List.foldl_append, hS]
  simp only [List.foldl_cons, List.foldl_nil]
  have hdiv : S / 256 < 256 := by omega
  have h1 : crcProcessByte S (S % 256) = S / 256 := by
    unfold crcProcessByte
    have hx : S ^^^ S % 256 = 256 * (S / 256) := by
      conv_lhs => rw [show S = 256 * (S / 256) + S % 256 by omega]
      rw [Nat.mul_add_mod,
        Nat.mod_eq_of_lt (Nat.mod_lt S (by norm_num) : S % 256 < 256)]
      exact xor_low_byte_clear (S / 256) (S % 256) (Nat.mod_lt S (by norm_num))
    rw [hx]
    have e : (2 : Nat) ^ 8 = 256 := by norm_num
    have h := crcRounds_two_pow_mul 8 (S / 256)
    rwa [e] at h
  have h2 : crcProcessByte (S / 256) (S / 256 % 256) = 0 := by
    rw [crcProcessByte, Nat.mod_eq_of_lt hdiv, Nat.xor_self]
    exact crcRounds_zero
  rw [h1, h2]
  rfl

/-! ### Single-bit corruption of a frame body -/

/-- Flip bit `k` of the byte at position `i` (all other bytes unchanged). -/
def flipBit (l : List Nat) (i k : Nat) : List Nat :=
  l.take i ++ [l.getD i 0 ^^^ 2 ^ k] ++ l.drop (i + 1)

theorem list_take_getD_drop (l : List Nat) :
    ∀ i, i < l.length → l.take i ++ l.getD i 0 :: l.drop (i + 1) = l := by
  induction l with
  | nil => intro i h; simp at h
  | cons x xs ih =>
      intro i h
      cases i with
      | zero => simp
      | succ i =>
          simp only [List.take_succ_cons, List.getD_cons_succ,
            List.drop_succ_cons, List.cons_append, List.cons.injEq, true_and]
          exact ih i (by simpa using h)

theorem frameBody_append_pair (body : List Nat) (x y : Nat) :
    frameBody (body ++ [x, y]) = body := by
  have h : (body ++ [x, y]).length - 2 = body.length := by simp
  rw [frameBody, h, List.take_left]

theorem frameReceivedCrc_append_pair (body : List Nat) (x y : Nat) :
    frameReceivedCrc (body ++ [x, y]) = x + 256 * y := by
  have h : (body ++ [x, y]).length - 2 = body.length := by simp
  rw [frameReceivedCrc, h, List.drop_left]
  rfl

theorem parse_frame_badCrc (frame : List Nat) (ea : Option Nat)
    (h4 : ¬ frame.length < 4)
    (hne : frameReceivedCrc frame ≠ crc16_modbus (frameBody frame)) :
    parse_frame frame ea =
      .error (.badCrc (frameReceivedCrc frame) (crc16_modbus (frameBody frame))) := by
  rw [parse_frame.eq_def, if_neg h4, if_pos hne]

/-- A single bit flipped in the body of a built frame is caught by the
checksum comparison: parsing fails. -/
theorem parse_frame_flipBit_error (a c : Nat) (d : List Nat) (i k : Nat)
    (ea : Option Nat) (ha : a ≤ 255) (hc : c ≤ 255) (hd : ∀ b ∈ d, b ≤ 255)
    (hi : i < d.length + 2) (hk : k < 8) :
    ∃ e, parse_frame (flipBit (build_frame a c d) i k) ea = .error e := by
  have hbody := body_bytes_le a c d ha hc hd
  have hbl : (a :: c :: d).length = d.length + 2 := by simp
  have hi' : i < (a :: c :: d).length := by omega
  -- decompose the flipped frame as flippedBody ++ (the two original crc bytes)
  have hflip : flipBit (build_frame a c d) i k =
      ((a :: c :: d).take i ++ ((a :: c :: d).getD i 0 ^^^ 2 ^ k) ::
        (a :: c :: d).drop (i + 1)) ++
      [crc16_modbus (a :: c :: d) % 256, crc16_modbus (a :: c :: d) / 256 % 256] := by
    rw [flipBit, build_frame,
      List.take_append_of_le_length (by omega),
      List.getD_append _ _ _ i hi',
      List.drop_append_of_le_length (by omega)]
    simp
  have hb : (a :: c :: d).getD i 0 ≤ 255 := by
    have hm : (a :: c :: d).getD i 0 ∈ (a :: c :: d) := by
      rw [List.getD_eq_getElem _ _ hi']
      exact List.getElem_mem hi'
    exact hbody _ hm
  have hb' : (a :: c :: d).getD i 0 ^^^ 2 ^ k ≤ 255 := by
    have h2k : (2 : Nat) ^ k < 2 ^ 8 := Nat.pow_lt_pow_right (by norm_num) hk
    have e : (2 : Nat) ^ 8 = 256 := by norm_num
    have hxx : (a :: c :: d).getD i 0 < 2 ^ 8 := by omega
    have := Nat.xor_lt_two_pow hxx h2k
    omega
  have hneq : (a :: c :: d).getD i 0 ≠ (a :: c :: d).getD i 0 ^^^ 2 ^ k := by
    intro he
    have h0 : (a :: c :: d).getD i 0 ^^^ ((a :: c :: d).getD i 0 ^^^ 2 ^ k) = 2 ^ k :=
      Nat.xor_cancel_left _ _
    rw [← he, Nat.xor_self] at h0
    exact (Nat.ne_of_lt (Nat.two_pow_pos k)) h0
  have hcrcne : crc16_modbus ((a :: c :: d).take i ++
      ((a :: c :: d).getD i 0 ^^^ 2 ^ k) :: (a :: c :: d).drop (i + 1)) ≠
      crc16_modbus (a :: c :: d) := by
    have h := crc16_modbus_ne_of_byte_ne
      ((a :: c :: d).take i) ((a :: c :: d).drop (i + 1))
      ((a :: c :: d).getD i 0) ((a :: c :: d).getD i 0 ^^^ 2 ^ k)
      (fun b hbm => hbody b (List.take_subset i _ hbm))
      (fun b hbm => hbody b (List.drop_subset (i + 1) _ hbm))
      hb hb' hneq
    rw [list_take_getD_drop _ i hi'] at h
    exact fun he => h he.symm
  refine ⟨_, parse_frame_badCrc _ ea ?_ ?_⟩
  · rw [hflip]
    simp
    omega
  · rw [hflip, frameBody_append_pair, frameReceivedCrc_append_pair,
      crc_bytes_le _ (crc16_modbus_le _)]
    exact fun he => hcrcne he.symm

/-! ## Energy-value decoding (src/mercury230/client.py, `_decode_energy_value`) -/

/-- Bitwise-or of a multiple of `2 ^ n` with a value below `2 ^ n` is
addition. -/
theorem mul_pow_or_eq_add (a b n : Nat) (hb : b < 2 ^ n) :
    (2 ^ n * a) ||| b = 2 ^ n * a + b := by
  apply Nat.eq_of_testBit_eq
  intro i
  have hq : (2 : Nat) ^ n * a = 2 ^ n * a + 0 := by ring
  rw [Nat.testBit_lor, Nat.testBit_mul_pow_two_add a hb i, hq,
    Nat.testBit_mul_pow_two_add a (by norm_num) i]
  by_cases h : i < n
  · simp [h]
  · have hbi : b.testBit i = false :=
      Nat.testBit_lt_two_pow
        (lt_of_lt_of_le hb (Nat.pow_le_pow_right (by norm_num) (Nat.not_lt.mp h)))
    simp [h, hbi]

/-- `_decode_energy_value(response_cmd, block)`: the source's three observed
layouts, checked in order, with the bitwise operators of the Python code. -/
def decode_energy_value (response_cmd : Nat) (block : List Nat) :
    Except ProtocolError Nat :=
  if block.length ≠ 4 then .error (.custom "energy block must contain 4 bytes")
  else if block.getD 0 0 = 0 ∧ block.getD 1 0 = 0 ∧ block.getD 2 0 = 0 ∧
      block.getD 3 0 = 0 ∧ response_cmd = 0 then .ok 0
  else if response_cmd = 0 ∧ block.getD 0 0 = 0 ∧ block.getD 1 0 = 0 ∧
      block.getD 3 0 ≠ 255 then
    .ok ((block.getD 3 0 <<< 8) ||| block.getD 2 0)
  else
    .ok (((response_cmd <<< 16) ||| (block.getD 2 0 <<< 8)) ||| block.getD 1 0)

/-- The energy-decoding rule as the spec words it: the same ordered
three-branch rule with the composed values written arithmetically
(`(byte3 << 8) | byte2` as `256 * byte3 + byte2`, and
`(response_command << 16) | (byte2 << 8) | byte1` as
`65536 * response_command + 256 * byte2 + byte1`). -/
def decode_energy_rule (response_cmd : Nat) (block : List Nat) :
    Except ProtocolError Nat :=
  if block.length ≠ 4 then .error (.custom "energy block must contain 4 bytes")
  else if block.getD 0 0 = 0 ∧ block.getD 1 0 = 0 ∧ block.getD 2 0 = 0 ∧
      block.getD 3 0 = 0 ∧ response_cmd = 0 then .ok 0
  else if response_cmd = 0 ∧ block.getD 0 0 = 0 ∧ block.getD 1 0 = 0 ∧
      block.getD 3 0 ≠ 255 then
    .ok (256 * block.getD 3 0 + block.getD 2 0)
  else
    .ok (65536 * response_cmd + 256 * block.getD 2 0 + block.getD 1 0)

theorem getD_le_255 (l : List Nat) (h : ∀ b ∈ l, b ≤ 255) (i : Nat) :
    l.getD i 0 ≤ 255 := by
  by_cases hi : i < l.length
  · have hm : l.getD i 0 ∈ l := by
      rw [List.getD_eq_getElem _ _ hi]
      exact List.getElem_mem hi
    exact h _ hm
  · rw [List.getD_eq_default _ _ (Nat.not_lt.mp hi)]
    omega

theorem or2_bytes_eq (b3 b2 : Nat) (h2 : b2 ≤ 255) :
    (b3 <<< 8) ||| b2 = 256 * b3 + b2 := by
  have e : (2 : Nat) ^ 8 = 256 := by norm_num
  rw [Nat.shiftLeft_eq, Nat.mul_comm b3 (2 ^ 8),
    mul_pow_or_eq_add b3 b2 8 (by omega), e]

theorem or3_bytes_eq (cmd b2 b1 : Nat) (h2 : b2 ≤ 255) (h1 : b1 ≤ 255) :
    ((cmd <<< 16) ||| (b2 <<< 8)) ||| b1 =
      65536 * cmd + 256 * b2 + b1 := by
  have e8 : (2 : Nat) ^ 8 = 256 := by norm_num
  have e16 : (2 : Nat) ^ 16 = 65536 := by norm_num
  have hinner : (cmd <<< 16) ||| (b2 <<< 8) = 2 ^ 8 * (2 ^ 8 * cmd + b2) := by
    rw [Nat.shiftLeft_eq, Nat.shiftLeft_eq, Nat.mul_comm cmd (2 ^ 16)]
    rw [mul_pow_or_eq_add cmd (b2 * 2 ^ 8) 16 (by omega)]
    ring
  rw [hinner, mul_pow_or_eq_add (2 ^ 8 * cmd + b2) b1 8 (by omega), e8]
  ring

/-- The source's decoder agrees branch-for-branch with the spec's ordered
rule, for byte-valued inputs. -/
theorem decode_energy_value_eq_rule_aux (response_cmd : Nat) (block : List Nat)
    (hblock : ∀ b ∈ block, b ≤ 255) :
    decode_energy_value response_cmd block =
      decode_energy_rule response_cmd block := by
  unfold decode_energy_value decode_energy_rule
  by_cases hl : block.length ≠ 4
  · rw [if_pos hl, if_pos hl]
  · rw [if_neg hl, if_neg hl]
    have hb1 := getD_le_255 block hblock 1
    have hb2 := getD_le_255 block hblock 2
    have hb3 := getD_le_255 block hblock 3
    by_cases h1 : block.getD 0 0 = 0 ∧ block.getD 1 0 = 0 ∧
        block.getD 2 0 = 0 ∧ block.getD 3 0 = 0 ∧ response_cmd = 0
    · rw [if_pos h1, if_pos h1]
    · rw [if_neg h1, if_neg h1]
      by_cases h2 : response_cmd = 0 ∧ block.getD 0 0 = 0 ∧
          block.getD 1 0 = 0 ∧ block.getD 3 0 ≠ 255
      · rw [if_pos h2, if_pos h2, or2_bytes_eq _ _ hb2]
      · rw [if_neg h2, if_neg h2, or3_bytes_eq _ _ _ hb2 hb1]

/-! ## Build-date parsing (src/mercury230/client.py, `_parse_build_date`) -/

/-- Gregorian leap-year rule, as used by the Python `datetime` module. -/
def isLeapYear (y : Nat) : Bool :=
  ((y % 4 == 0) && (y % 100 != 0)) || (y % 400 == 0)

/-- Days in a month of the proleptic Gregorian calendar. -/
def daysInMonth (y m : Nat) : Nat :=
  if m = 2 then (if isLeapYear y then 29 else 28)
  else if m = 4 ∨ m = 6 ∨ m = 9 ∨ m = 11 then 30
  else 31

/-- Modelled from the Python standard library (not repository code): the
`datetime.date(year, month, day)` constructor accepts exactly the valid
proleptic-Gregorian dates with year 1..9999 and raises `ValueError`
otherwise. -/
def isValidDate (y m d : Nat) : Bool :=
  decide (1 ≤ y ∧ y ≤ 9999 ∧ 1 ≤ m ∧ m ≤ 12 ∧ 1 ≤ d ∧ d ≤ daysInMonth y m)

/-- `_parse_build_date(data)`: with fewer than 3 bytes return no date; else
read `data[-3], data[-2], data[-1]` as day, month, two-digit year (offset by
2000); an invalid calendar date (the `except ValueError` path) yields no
date.  A successful parse is the triple (year, month, day). -/
def parse_build_date (data : List Nat) : Option (Nat × Nat × Nat) :=
  if data.length < 3 then none
  else if isValidDate (2000 + data.getD (data.length - 1) 0)
      (data.getD (data.length - 2) 0) (data.getD (data.length - 3) 0) then
    some (2000 + data.getD (data.length - 1) 0,
      data.getD (data.length - 2) 0, data.getD (data.length - 3) 0)
  else none

/-! ## Message rendering (the `f`-string interpolations of the source) -/

/-- One lowercase hexadecimal digit. -/
def hexDigitLower (n : Nat) : Char :=
  if n < 10 then Char.ofNat (48 + n) else Char.ofNat (87 + n)

/-- One uppercase hexadecimal digit. -/
def hexDigitUpper (n : Nat) : Char :=
  if n < 10 then Char.ofNat (48 + n) else Char.ofNat (55 + n)

/-- Python `{:02X}`. -/
def hex2Upper (n : Nat) : String :=
  String.mk [hexDigitUpper (n / 16 % 16), hexDigitUpper (n % 16)]

/-- Python `{:04X}`. -/
def hex4Upper (n : Nat) : String :=
  String.mk [hexDigitUpper (n / 4096 % 16), hexDigitUpper (n / 256 % 16),
    hexDigitUpper (n / 16 % 16), hexDigitUpper (n % 16)]

/-- Python `bytes.hex(" ")`: lowercase two-digit hex bytes joined by one
space. -/
def hexRender : List Nat → String
  | [] => ""
  | [b] => String.mk [hexDigitLower (b / 16 % 16), hexDigitLower (b % 16)]
  | b :: rest =>
      String.mk [hexDigitLower (b / 16 % 16), hexDigitLower (b % 16)] ++ " " ++
        hexRender rest

/-- The message of a `MercuryProtocolError`. -/
def protocolErrorMessage : ProtocolError → String
  | .tooShort => "frame is too short"
  | .badCrc got expected =>
      "bad crc: got 0x" ++ hex4Upper got ++ ", expected 0x" ++ hex4Upper expected
  | .unexpectedAddress got expected =>
      "unexpected address: got " ++ toString got ++ ", expected " ++
        toString expected
  | .custom msg => msg

/-! ## Client model (src/mercury230/client.py, `Mercury230Client`)

The exceptions a client operation can raise: Python `ValueError`,
`MercuryProtocolError`, `MercuryNoResponseError` (a subtype of
`MercuryTransportError`) and plain `MercuryTransportError`.  Each constructor
carries exactly the data its Python message interpolates. -/
inductive ClientError where
  | valueError (msg : String) : ClientError
  | protocolError (e : ProtocolError) : ClientError
  | noResponse (address command attempts : Nat) : ClientError
  | transportInvalid (command : Nat) (raw : List Nat)
      (parseErr : Option ProtocolError) : ClientError
deriving DecidableEq, Repr

/-- The message attached to a raised `ClientError`, mirroring the source's
`f`-strings. -/
def clientErrorMessage : ClientError → String
  | .valueError m => m
  | .protocolError e => protocolErrorMessage e
  | .noResponse addr cmd attempts =>
      "no response from meter address " ++ toString addr ++ " for command 0x" ++
        hex2Upper cmd ++ " after " ++ toString attempts ++ " attempt(s)"
  | .transportInvalid cmd raw (some e) =>
      ("invalid response for command 0x" ++ hex2Upper cmd ++ ": ") ++
        hexRender raw ++ (" (" ++ protocolErrorMessage e ++ ")")
  | .transportInvalid cmd raw none =>
      ("invalid response for command 0x" ++ hex2Upper cmd ++ ": ") ++
        hexRender raw ++ ""

/-- Transport-interaction state: `respond k` is the full byte string the two
reads of attempt `k` collect (the source's `read(min_response)` plus
`read(in_waiting)`, abstracted as one delivery per write), where `k` counts
the writes performed so far; `writes` is the log of frames written, oldest
first.  `reset_input_buffer` is a no-op here: the model's responses are
per-attempt already. -/
structure TransportState where
  respond : Nat → List Nat
  writes : List (List Nat)

/-- A client computation: explicit state passing with typed failure. -/
def M (α : Type) : Type := TransportState → Except ClientError α × TransportState

def mpure {α : Type} (a : α) : M α := fun s => (.ok a, s)

def mbind {α β : Type} (x : M α) (f : α → M β) : M β := fun s =>
  match x s with
  | (.ok a, s1) => f a s1
  | (.error e, s1) => (.error e, s1)

def mthrow {α : Type} (e : ClientError) : M α := fun s => (.error e, s)

/-- One transport write followed by the attempt's combined reads. -/
def writeRead (tx : List Nat) : M (List Nat) := fun s =>
  (.ok (s.respond s.writes.length), ⟨s.respond, s.writes ++ [tx]⟩)

/-- The retry loop of `_exchange`: `attemptsLeft` counts loop iterations still
available; `lastRx`/`lastError` are the source's `last_rx`/`last_error`.
After the loop: `MercuryNoResponseError` when the last received reply was
shorter than 4 bytes, else `MercuryTransportError` carrying the raw bytes and
the retained parse error (the no-error fallback is the source's defensive
final `raise`). -/
def exchangeGo (address command : Nat) (tx : List Nat) (attemptsTotal : Nat) :
    Nat → List Nat → Option ProtocolError → M (Nat × List Nat)
  | 0, lastRx, lastError => fun s =>
      if lastRx.length < 4 then
        (.error (.noResponse address command attemptsTotal), s)
      else
        match lastError with
        | some e => (.error (.transportInvalid command lastRx (some e)), s)
        | none => (.error (.transportInvalid command lastRx none), s)
  | n + 1, _, lastError =>
      mbind (writeRead tx) (fun rx =>
        if rx.length < 4 then exchangeGo address command tx attemptsTotal n rx lastError
        else
          match parse_frame rx (some address) with
          | .ok r => mpure (r.2.1, r.2.2)
          | .error e => exchangeGo address command tx attemptsTotal n rx (some e))

/-- `_exchange(command, data)`: build the request frame (surfacing the
source's `ValueError` for out-of-range address/command), then run
`retries + 1` attempts. -/
def exchange (address command : Nat) (data : List Nat) (retries : Nat) :
    M (Nat × List Nat) :=
  match build_frameE address command data with
  | .error m => mthrow (.valueError m)
  | .ok tx => exchangeGo address command tx (retries + 1) (retries + 1) [] none

/-- The per-client configuration the modelled operations read: the validated
address and the retry count. -/
structure ClientCfg where
  address : Nat
  retries : Nat

/-- `open_session(access_level, password)`: `ValueError` when the password is
not exactly 6 bytes, else one exchange of command 0x01 with
`access_level ‖ password`. -/
def open_session (cfg : ClientCfg) (access_level : Nat) (password : List Nat) :
    M Unit :=
  if password.length ≠ 6 then
    mthrow (.valueError "password must contain exactly 6 bytes")
  else
    mbind (exchange cfg.address 0x01 (access_level :: password) cfg.retries)
      (fun _ => mpure ())

/-- `_prepare_energy_session()`: open the session at access level 0x01 with
password `01 01 01 01 01 01`, then exchange 0x08 / 0x12. -/
def prepare_energy_session (cfg : ClientCfg) : M Unit :=
  mbind (open_session cfg 0x01 [1, 1, 1, 1, 1, 1]) (fun _ =>
    mbind (exchange cfg.address 0x08 [0x12] cfg.retries) (fun _ => mpure ()))

/-- `_read_energy_register(group, index)`: range checks, one exchange of
command 0x05 with `[group, index]`, a 12-byte payload minimum, then the two
4-byte blocks decoded. -/
def read_energy_register (cfg : ClientCfg) (group index : Nat) :
    M (Nat × Nat × List Nat) :=
  if 255 < group then mthrow (.valueError "group must be 0..255")
  else if 255 < index then mthrow (.valueError "index must be 0..255")
  else
    mbind (exchange cfg.address 0x05 [group, index] cfg.retries) (fun r =>
      if r.2.length < 12 then
        mthrow (.protocolError (.custom
          ("short energy payload for group/index " ++ hex2Upper group ++ "/" ++
            hex2Upper index ++ ": " ++ hexRender r.2)))
      else
        match decode_energy_value r.1 (r.2.take 4),
            decode_energy_value r.1 ((r.2.drop 8).take 4) with
        | .ok a, .ok rv => mpure (a, rv, r.2)
        | .error e, _ => mthrow (.protocolError e)
        | _, .error e => mthrow (.protocolError e))

/-- Python `{:02d}` for the raw-bytes keys `idx_00` .. `idx_05`. -/
def pad2 (n : Nat) : String :=
  if n < 10 then "0" ++ toString n else toString n

/-- The result value of one profile-group read (the source's
`EnergyFromReset` dataclass), with the three dicts as association lists in
insertion order. -/
structure EnergyFromReset where
  active_wh : List (String × Nat)
  reactive_varh : List (String × Nat)
  raw : List (String × List Nat)
deriving DecidableEq, Repr

/-- The source's `labels` dict of `_read_energy_profile_group`, in insertion
order. -/
def energyLabels : List (Nat × String) :=
  [(0, "sum"), (1, "t1"), (2, "t2"), (3, "t3"), (4, "t4"), (5, "loss")]

/-- The register loop of `_read_energy_profile_group`. -/
def profileGo (cfg : ClientCfg) (group : Nat) :
    List (Nat × String) → List (String × Nat) → List (String × Nat) →
      List (String × List Nat) → M EnergyFromReset
  | [], accA, accR, accRaw => mpure ⟨accA, accR, accRaw⟩
  | (idx, label) :: rest, accA, accR, accRaw =>
      mbind (read_energy_register cfg group idx) (fun r =>
        profileGo cfg group rest (accA ++ [(label, r.1)])
          (accR ++ [(label, r.2.1)]) (accRaw ++ [("idx_" ++ pad2 idx, r.2.2)]))

/-- `_read_energy_profile_group(group)`. -/
def read_energy_profile_group (cfg : ClientCfg) (group : Nat) :
    M EnergyFromReset :=
  profileGo cfg group energyLabels [] [] []

/-- `read_energy_for_month(month)`: `ValueError` when the month is outside
1..12, else prepare the session and read group `0x30 + month`. -/
def read_energy_for_month (cfg : ClientCfg) (month : Nat) : M EnergyFromReset :=
  if month < 1 ∨ 12 < month then
    mthrow (.valueError "month must be in range 1..12")
  else
    mbind (prepare_energy_session cfg) (fun _ =>
      read_energy_profile_group cfg (0x30 + month))

/-- The month loop of `read_energy_all_months` (`for month in range(1, 13)`),
collecting the per-month results in insertion order. -/
def allMonthsGo (cfg : ClientCfg) :
    List Nat → List (Nat × EnergyFromReset) → M (List (Nat × EnergyFromReset))
  | [], acc => mpure acc
  | m :: rest, acc =>
      mbind (read_energy_profile_group cfg (0x30 + m)) (fun e =>
        allMonthsGo cfg rest (acc ++ [(m, e)]))

/-- `read_energy_all_months()`: prepare one session, then read the twelve
monthly groups in ascending order. -/
def read_energy_all_months (cfg : ClientCfg) : M (List (Nat × EnergyFromReset)) :=
  mbind (prepare_energy_session cfg) (fun _ =>
    allMonthsGo cfg ((List.range 12).map (fun m => m + 1)) [])

/-! ### A transport that always answers with one fixed well-formed frame -/

/-- A well-formed response frame from device `addr`: command byte 0 and a
12-byte all-zero payload. -/
def goodResponse (addr : Nat) : List Nat :=
  build_frame addr 0 (List.replicate 12 0)

/-- The transport behaviour that delivers `goodResponse addr` on every
attempt. -/
def goodResponder (addr : Nat) : Nat → List Nat :=
  fun _ => goodResponse addr

theorem goodResponse_length (addr : Nat) : (goodResponse addr).length = 16 := by
  rw [goodResponse, build_frame_length]
  rfl

theorem goodResponse_parse (addr : Nat) :
    parse_frame (goodResponse addr) (some addr) =
      .ok (addr, 0, List.replicate 12 0) :=
  parse_frame_build_frame addr 0 _

instance {ε α : Type} [DecidableEq ε] [DecidableEq α] :
    DecidableEq (Except ε α) := fun x y =>
  match x, y with
  | .ok a, .ok b =>
      if h : a = b then isTrue (by rw [h])
      else isFalse (fun he => h (Except.ok.inj he))
  | .error e, .error f =>
      if h : e = f then isTrue (by rw [h])
      else isFalse (fun he => h (Except.error.inj he))
  | .ok _, .error _ => isFalse (fun he => Except.noConfusion he)
  | .error _, .ok _ => isFalse (fun he => Except.noConfusion he)

theorem mbind_ok {α β : Type} {x : M α} {f : α → M β} {s s1 : TransportState}
    {a : α} (hx : x s = (.ok a, s1)) : mbind x f s = f a s1 := by
  unfold mbind
  rw [hx]

theorem mbind_error {α β : Type} {x : M α} {f : α → M β}
    {s s1 : TransportState} {e : ClientError} (hx : x s = (.error e, s1)) :
    mbind x f s = (.error e, s1) := by
  unfold mbind
  rw [hx]

theorem exchange_good (addr cmd : Nat) (data : List Nat) (retries : Nat)
    (w : List (List Nat)) (ha : addr ≤ 255) (hc : cmd ≤ 255) :
    exchange addr cmd data retries ⟨goodResponder addr, w⟩ =
      (.ok (0, List.replicate 12 0),
       ⟨goodResponder addr, w ++ [build_frame addr cmd data]⟩) := by
  have hb : build_frameE addr cmd data = .ok (build_frame addr cmd data) := by
    rw [build_frameE, if_neg (by omega), if_neg (by omega)]
  have hwr : writeRead (build_frame addr cmd data) ⟨goodResponder addr, w⟩ =
      (.ok (goodResponse addr),
       ⟨goodResponder addr, w ++ [build_frame addr cmd data]⟩) := rfl
  unfold exchange
  rw [hb]
  show exchangeGo addr cmd (build_frame addr cmd data) (retries + 1)
    (retries + 1) [] none ⟨goodResponder addr, w⟩ = _
  rw [exchangeGo, mbind_ok hwr]
  simp only [goodResponse_length, goodResponse_parse, mpure]
  norm_num
  rfl

theorem read_energy_register_good (addr retries group idx : Nat)
    (w : List (List Nat)) (ha : addr ≤ 255) (hg : group ≤ 255)
    (hidx : idx ≤ 255) :
    read_energy_register ⟨addr, retries⟩ group idx ⟨goodResponder addr, w⟩ =
      (.ok (0, 0, List.replicate 12 0),
       ⟨goodResponder addr, w ++ [build_frame addr 5 [group, idx]]⟩) := by
  have hdec : decode_energy_value 0 ((List.replicate 12 (0 : Nat)).take 4) =
      .ok 0 := by rfl
  have hdec2 : decode_energy_value 0
      (((List.replicate 12 (0 : Nat)).drop 8).take 4) = .ok 0 := by rfl
  rw [read_energy_register, if_neg (by omega), if_neg (by omega),
    mbind_ok (exchange_good addr 5 [group, idx] retries w ha (by norm_num))]
  simp only [List.length_replicate, hdec, hdec2, mpure, mthrow]
  norm_num
  rfl

/-- The all-zero `EnergyFromReset` the good responder yields. -/
def zeroEnergy : EnergyFromReset :=
  ⟨energyLabels.map (fun p => (p.2, 0)), energyLabels.map (fun p => (p.2, 0)),
   energyLabels.map (fun p => ("idx_" ++ pad2 p.1, List.replicate 12 0))⟩

theorem profileGo_good (addr retries group : Nat) (ha : addr ≤ 255)
    (hg : group ≤ 255) :
    ∀ (labels : List (Nat × String)), (∀ p ∈ labels, p.1 ≤ 255) →
    ∀ (accA accR : List (String × Nat)) (accRaw : List (String × List Nat))
      (w : List (List Nat)),
    profileGo ⟨addr, retries⟩ group labels accA accR accRaw
        ⟨goodResponder addr, w⟩ =
      (.ok ⟨accA ++ labels.map (fun p => (p.2, 0)),
            accR ++ labels.map (fun p => (p.2, 0)),
            accRaw ++ labels.map (fun p => ("idx_" ++ pad2 p.1,
              List.replicate 12 0))⟩,
       ⟨goodResponder addr,
        w ++ labels.map (fun p => build_frame addr 5 [group, p.1])⟩) := by
  intro labels
  induction labels with
  | nil =>
      intro _ accA accR accRaw w
      simp [profileGo, mpure]
  | cons p rest ih =>
      intro hL accA accR accRaw w
      obtain ⟨idx, label⟩ := p
      rw [profileGo, mbind_ok (read_energy_register_good addr retries group idx
        w ha hg (hL (idx, label) (List.mem_cons_self _ _)))]
      rw [ih (fun q hq => hL q (List.mem_cons_of_mem _ hq))]
      simp [List.append_assoc]

theorem read_energy_profile_group_good (addr retries group : Nat)
    (ha : addr ≤ 255) (hg : group ≤ 255) (w : List (List Nat)) :
    read_energy_profile_group ⟨addr, retries⟩ group ⟨goodResponder addr, w⟩ =
      (.ok zeroEnergy,
       ⟨goodResponder addr,
        w ++ (List.range 6).map (fun i => build_frame addr 5 [group, i])⟩) := by
  have hlab : ∀ p ∈ energyLabels, p.1 ≤ 255 := by decide
  rw [read_energy_profile_group,
    profileGo_good addr retries group ha hg energyLabels hlab [] [] [] w]
  rfl

theorem open_session_good (addr retries : Nat) (ha : addr ≤ 255)
    (w : List (List Nat)) :
    open_session ⟨addr, retries⟩ 0x01 [1, 1, 1, 1, 1, 1]
        ⟨goodResponder addr, w⟩ =
      (.ok (),
       ⟨goodResponder addr,
        w ++ [build_frame addr 0x01 [1, 1, 1, 1, 1, 1, 1]]⟩) := by
  rw [open_session, if_neg (by norm_num),
    mbind_ok (exchange_good addr 0x01 [1, 1, 1, 1, 1, 1, 1] retries w ha
      (by norm_num))]
  rfl

theorem prepare_energy_session_good (addr retries : Nat) (ha : addr ≤ 255)
    (w : List (List Nat)) :
    prepare_energy_session ⟨addr, retries⟩ ⟨goodResponder addr, w⟩ =
      (.ok (),
       ⟨goodResponder addr,
        w ++ [build_frame addr 0x01 [1, 1, 1, 1, 1, 1, 1],
              build_frame addr 0x08 [0x12]]⟩) := by
  rw [prepare_energy_session, mbind_ok (open_session_good addr retries ha w),
    mbind_ok (exchange_good addr 0x08 [0x12] retries
      (w ++ [build_frame addr 0x01 [1, 1, 1, 1, 1, 1, 1]]) ha (by norm_num))]
  simp [mpure, List.append_assoc]

theorem allMonthsGo_good (addr retries : Nat) (ha : addr ≤ 255) :
    ∀ (ms : List Nat), (∀ m ∈ ms, 0x30 + m ≤ 255) →
    ∀ (acc : List (Nat × EnergyFromReset)) (w : List (List Nat)),
    allMonthsGo ⟨addr, retries⟩ ms acc ⟨goodResponder addr, w⟩ =
      (.ok (acc ++ ms.map (fun m => (m, zeroEnergy))),
       ⟨goodResponder addr,
        w ++ ms.flatMap (fun m =>
          (List.range 6).map (fun i => build_frame addr 5 [0x30 + m, i]))⟩) := by
  intro ms
  induction ms with
  | nil =>
      intro _ acc w
      simp [allMonthsGo, mpure]
  | cons m rest ih =>
      intro hm acc w
      rw [allMonthsGo, mbind_ok (read_energy_profile_group_good addr retries
        (0x30 + m) ha (hm m (List.mem_cons_self _ _)) w)]
      rw [ih (fun q hq => hm q (List.mem_cons_of_mem _ hq))]
      simp [List.append_assoc]

/-! ### Classification of `_exchange` outcomes when no attempt parses -/

theorem except_isOk_false {ε α : Type} (x : Except ε α) (h : x.isOk = false) :
    ∃ e, x = .error e := by
  cases x with
  | ok a => simp [Except.isOk, Except.toBool] at h
  | error e => exact ⟨e, rfl⟩

theorem exchangeGo_zero (addr cmd : Nat) (tx lastRx : List Nat) (A : Nat)
    (lastErr : Option ProtocolError) (s : TransportState) :
    exchangeGo addr cmd tx A 0 lastRx lastErr s =
      (if lastRx.length < 4 then (.error (.noResponse addr cmd A), s)
       else
         match lastErr with
         | some e => (.error (.transportInvalid cmd lastRx (some e)), s)
         | none => (.error (.transportInvalid cmd lastRx none), s)) := rfl

theorem exchangeGo_succ (addr cmd : Nat) (tx lastRx : List Nat) (A n : Nat)
    (lastErr : Option ProtocolError) (resp : Nat → List Nat)
    (w : List (List Nat)) :
    exchangeGo addr cmd tx A (n + 1) lastRx lastErr ⟨resp, w⟩ =
      (if (resp w.length).length < 4 then
        exchangeGo addr cmd tx A n (resp w.length) lastErr ⟨resp, w ++ [tx]⟩
      else
        match parse_frame (resp w.length) (some addr) with
        | .ok r => mpure (r.2.1, r.2.2) ⟨resp, w ++ [tx]⟩
        | .error e =>
            exchangeGo addr cmd tx A n (resp w.length) (some e)
              ⟨resp, w ++ [tx]⟩) := by
  rw [exchangeGo,
    mbind_ok (rfl :
      writeRead tx ⟨resp, w⟩ =
        (.ok (resp w.length), ⟨resp, w ++ [tx]⟩))]
  by_cases h : (resp w.length).length < 4
  · rw [if_pos h, if_pos h]
  · rw [if_neg h, if_neg h]
    cases hp : parse_frame (resp w.length) (some addr) with
    | ok r => rfl
    | error e => rfl

/-- When no attempt's reply parses, the loop classifies its outcome by the
length of the LAST attempt's reply: shorter than 4 bytes gives
`MercuryNoResponseError`, otherwise `MercuryTransportError` carrying the raw
bytes and the last parse error. -/
theorem exchangeGo_fail (addr cmd : Nat) (tx : List Nat) (A : Nat)
    (resp : Nat → List Nat) :
    ∀ n (w : List (List Nat)) (lastRx : List Nat)
      (lastErr : Option ProtocolError),
    (∀ k, k ≤ n → (parse_frame (resp (w.length + k)) (some addr)).isOk = false) →
    (((resp (w.length + n)).length < 4 →
      (exchangeGo addr cmd tx A (n + 1) lastRx lastErr ⟨resp, w⟩).1 =
        .error (.noResponse addr cmd A)) ∧
     (∀ e, parse_frame (resp (w.length + n)) (some addr) = .error e →
      4 ≤ (resp (w.length + n)).length →
      (exchangeGo addr cmd tx A (n + 1) lastRx lastErr ⟨resp, w⟩).1 =
        .error (.transportInvalid cmd (resp (w.length + n)) (some e)))) := by
  intro n
  induction n with
  | zero =>
      intro w lastRx lastErr _
      constructor
      · intro h4
        rw [Nat.add_zero] at h4
        rw [exchangeGo_succ, if_pos h4, exchangeGo_zero, if_pos h4]
      · intro e hpe h4
        rw [Nat.add_zero] at hpe h4
        rw [exchangeGo_succ, if_neg (by omega), hpe]
        show (exchangeGo addr cmd tx A 0 (resp w.length) (some e)
          ⟨resp, w ++ [tx]⟩).1 = _
        rw [exchangeGo_zero, if_neg (by omega)]
        rfl
  | succ n ih =>
      intro w lastRx lastErr hfail
      obtain ⟨e0, hpe0⟩ := except_isOk_false _ (hfail 0 (Nat.zero_le _))
      rw [Nat.add_zero] at hpe0
      have hw : (w ++ [tx]).length = w.length + 1 := by simp
      have hshift : ∀ k, k ≤ n →
          (parse_frame (resp ((w ++ [tx]).length + k)) (some addr)).isOk =
            false := by
        intro k hk
        rw [hw, Nat.add_assoc]
        exact hfail (1 + k) (by omega)
      constructor
      · intro h4
        rw [exchangeGo_succ]
        by_cases h0 : (resp w.length).length < 4
        · rw [if_pos h0]
          have hconj := (ih (w ++ [tx]) (resp w.length) lastErr hshift).1
          rw [hw, Nat.add_assoc, Nat.add_comm 1 n] at hconj
          exact hconj h4
        · rw [if_neg h0, hpe0]
          show (exchangeGo addr cmd tx A (n + 1) (resp w.length) (some e0)
            ⟨resp, w ++ [tx]⟩).1 = _
          have hconj := (ih (w ++ [tx]) (resp w.length) (some e0) hshift).1
          rw [hw, Nat.add_assoc, Nat.add_comm 1 n] at hconj
          exact hconj h4
      · intro e hpe h4
        rw [exchangeGo_succ]
        by_cases h0 : (resp w.length).length < 4
        · rw [if_pos h0]
          have hconj := (ih (w ++ [tx]) (resp w.length) lastErr hshift).2
          rw [hw, Nat.add_assoc, Nat.add_comm 1 n] at hconj
          exact hconj e hpe h4
        · rw [if_neg h0, hpe0]
          show (exchangeGo addr cmd tx A (n + 1) (resp w.length) (some e0)
            ⟨resp, w ++ [tx]⟩).1 = _
          have hconj := (ih (w ++ [tx]) (resp w.length) (some e0) hshift).2
          rw [hw, Nat.add_assoc, Nat.add_comm 1 n] at hconj
          exact hconj e hpe h4

theorem exchange_eq_go (addr cmd : Nat) (data : List Nat) (retries : Nat)
    (ha : addr ≤ 255) (hc : cmd ≤ 255) :
    exchange addr cmd data retries =
      exchangeGo addr cmd (build_frame addr cmd data) (retries + 1)
        (retries + 1) [] none := by
  have hb : build_frameE addr cmd data = .ok (build_frame addr cmd data) := by
    rw [build_frameE, if_neg (by omega), if_neg (by omega)]
  unfold exchange
  rw [hb]

/-- `_exchange` outcome classification, from a fresh transport state, when no
attempt's reply parses under the client's address. -/
theorem exchange_fail (addr cmd : Nat) (data : List Nat) (retries : Nat)
    (resp : Nat → List Nat) (ha : addr ≤ 255) (hc : cmd ≤ 255)
    (hfail : ∀ k, k ≤ retries →
      (parse_frame (resp k) (some addr)).isOk = false) :
    ((resp retries).length < 4 →
      (exchange addr cmd data retries ⟨resp, []⟩).1 =
        .error (.noResponse addr cmd (retries + 1))) ∧
    (∀ e, parse_frame (resp retries) (some addr) = .error e →
      4 ≤ (resp retries).length →
      (exchange addr cmd data retries ⟨resp, []⟩).1 =
        .error (.transportInvalid cmd (resp retries) (some e))) := by
  have h := exchangeGo_fail addr cmd (build_frame addr cmd data) (retries + 1)
    resp retries [] [] none (by simpa using hfail)
  rw [exchange_eq_go addr cmd data retries ha hc]
  simpa using h

theorem isOk_error {ε α : Type} (e : ε) :
    (Except.error e : Except ε α).isOk = false := rfl

theorem isOk_ok {ε α : Type} (a : α) :
    (Except.ok a : Except ε α).isOk = true := rfl

/-! ## The claims -/

/-- C1: `crc16_modbus` computes the reference CRC-16/Modbus: on every byte
string it equals the reference definition (polynomial 0xA001 reflected,
init 0xFFFF, 8 lsb-first shift iterations per byte), it is deterministic
(a function of its input alone), its result always lies in 0..0xFFFF, and on
the empty byte string it is 0xFFFF. -/
theorem c1_crc16_reference_conformance :
    (∀ data : List Nat, (∀ b ∈ data, b ≤ 255) →
      crc16_modbus data = crc16_reference data) ∧
    (∀ data : List Nat, crc16_modbus data ≤ 0xFFFF) ∧
    (∀ d1 d2 : List Nat, d1 = d2 → crc16_modbus d1 = crc16_modbus d2) ∧
    crc16_modbus [] = 0xFFFF := by
  refine ⟨crc16_modbus_eq_reference, crc16_modbus_le,
    fun d1 d2 h => by rw [h], by decide⟩

theorem c1_crc16_reference_conformance_witness :
    (∀ b ∈ [(1 : Nat), 0], b ≤ 255) ∧ crc16_modbus [1, 0] = crc16_reference [1, 0] :=
  ⟨by decide, c1_crc16_reference_conformance.1 [1, 0] (by decide)⟩

/-- C2: for every address and command in 0..255 and every byte string `data`,
building succeeds and parsing the built frame under `expected_address =
address` returns exactly `(address, command, data)`. -/
theorem c2_roundtrip (address command : Nat) (data : List Nat)
    (ha : address ≤ 255) (hc : command ≤ 255) (hd : ∀ b ∈ data, b ≤ 255) :
    build_frameE address command data = .ok (build_frame address command data) ∧
    parse_frame (build_frame address command data) (some address) =
      .ok (address, command, data) := by
  refine ⟨?_, parse_frame_build_frame address command data⟩
  rw [build_frameE, if_neg (by omega), if_neg (by omega)]

theorem c2_roundtrip_witness :
    (47 : Nat) ≤ 255 ∧
    parse_frame (build_frame 47 5 [1, 2, 3]) (some 47) = .ok (47, 5, [1, 2, 3]) :=
  ⟨by norm_num,
   (c2_roundtrip 47 5 [1, 2, 3] (by norm_num) (by norm_num) (by decide)).2⟩

/-- C3: `_decode_energy_value` behaves as the spec's ordered three-branch
rule (error on block length ≠ 4; the all-zero case and the tariff-2 case
tested before the dominant pattern, with the composed values written
arithmetically). -/
theorem c3_decode_energy_rule (response_cmd : Nat) (block : List Nat)
    (hblock : ∀ b ∈ block, b ≤ 255) :
    decode_energy_value response_cmd block =
      decode_energy_rule response_cmd block :=
  decode_energy_value_eq_rule_aux response_cmd block hblock

theorem c3_decode_energy_rule_witness :
    (∀ b ∈ [(0xAA : Nat), 0x11, 0x22, 0xBB], b ≤ 255) ∧
    decode_energy_value 5 [0xAA, 0x11, 0x22, 0xBB] =
      decode_energy_rule 5 [0xAA, 0x11, 0x22, 0xBB] :=
  ⟨by decide, c3_decode_energy_rule 5 [0xAA, 0x11, 0x22, 0xBB] (by decide)⟩

/-- C5: `parse_frame` fails exactly when the frame is shorter than 4 bytes,
or the little-endian value of its last two bytes differs from the CRC of all
preceding bytes, or an expected address is given and differs from the first
byte; otherwise it returns the first byte, the second byte and the slice
strictly between the command byte and the checksum, unaltered. -/
theorem c5_parse_frame_characterization (frame : List Nat) (ea : Option Nat) :
    ((parse_frame frame ea).isOk = false ↔
      (frame.length < 4 ∨
       frameReceivedCrc frame ≠ crc16_modbus (frameBody frame) ∨
       (∃ e, ea = some e ∧ frame.getD 0 0 ≠ e))) ∧
    ((parse_frame frame ea).isOk = true →
      parse_frame frame ea =
        .ok (frame.getD 0 0, frame.getD 1 0, (frameBody frame).drop 2)) := by
  by_cases h1 : frame.length < 4
  · have hp : parse_frame frame ea = .error .tooShort := by
      rw [parse_frame.eq_def, if_pos h1]
    rw [hp, isOk_error]
    exact ⟨⟨fun _ => Or.inl h1, fun _ => rfl⟩,
      fun hcontra => absurd hcontra (by simp)⟩
  · by_cases h2 : frameReceivedCrc frame ≠ crc16_modbus (frameBody frame)
    · have hp : parse_frame frame ea =
          .error (.badCrc (frameReceivedCrc frame)
            (crc16_modbus (frameBody frame))) := by
        rw [parse_frame.eq_def, if_neg h1, if_pos h2]
      rw [hp, isOk_error]
      exact ⟨⟨fun _ => Or.inr (Or.inl h2), fun _ => rfl⟩,
        fun hcontra => absurd hcontra (by simp)⟩
    · cases ea with
      | none =>
          have hp : parse_frame frame none =
              .ok (frame.getD 0 0, frame.getD 1 0, (frameBody frame).drop 2) := by
            rw [parse_frame, if_neg h1, if_neg h2]
          rw [hp, isOk_ok]
          refine ⟨⟨fun hcontra => absurd hcontra (by simp), fun hor => ?_⟩,
            fun _ => rfl⟩
          rcases hor with h | h | ⟨e, he, _⟩
          · exact absurd h h1
          · exact absurd h h2
          · exact Option.noConfusion he
      | some x =>
          by_cases h3 : frame.getD 0 0 ≠ x
          · have hp : parse_frame frame (some x) =
                .error (.unexpectedAddress (frame.getD 0 0) x) := by
              rw [parse_frame, if_neg h1, if_neg h2, if_pos h3]
            rw [hp, isOk_error]
            exact ⟨⟨fun _ => Or.inr (Or.inr ⟨x, rfl, h3⟩), fun _ => rfl⟩,
              fun hcontra => absurd hcontra (by simp)⟩
          · have hp : parse_frame frame (some x) =
                .ok (frame.getD 0 0, frame.getD 1 0, (frameBody frame).drop 2) := by
              rw [parse_frame, if_neg h1, if_neg h2, if_neg h3]
            rw [hp, isOk_ok]
            refine ⟨⟨fun hcontra => absurd hcontra (by simp), fun hor => ?_⟩,
              fun _ => rfl⟩
            rcases hor with h | h | ⟨e, he, hne⟩
            · exact absurd h h1
            · exact absurd h h2
            · exact (hne ((Option.some.inj he) ▸ (not_not.mp h3))).elim

theorem c5_parse_frame_characterization_witness :
    (parse_frame (build_frame 1 2 []) none).isOk = true ∧
    parse_frame (build_frame 1 2 []) none =
      .ok ((build_frame 1 2 []).getD 0 0, (build_frame 1 2 []).getD 1 0,
        (frameBody (build_frame 1 2 [])).drop 2) :=
  ⟨by decide,
   (c5_parse_frame_characterization (build_frame 1 2 []) none).2 (by decide)⟩

/-- C6: flipping any single bit of any byte of a built frame other than its
two checksum bytes makes `parse_frame` fail (for every `expected_address`
argument). -/
theorem c6_bitflip_detected (address command : Nat) (data : List Nat)
    (i k : Nat) (ea : Option Nat) (ha : address ≤ 255) (hc : command ≤ 255)
    (hd : ∀ b ∈ data, b ≤ 255) (hi : i < data.length + 2) (hk : k < 8) :
    ∃ e, parse_frame (flipBit (build_frame address command data) i k) ea =
      .error e :=
  parse_frame_flipBit_error address command data i k ea ha hc hd hi hk

theorem c6_bitflip_detected_witness :
    (0 : Nat) < 3 + 2 ∧
    ∃ e, parse_frame (flipBit (build_frame 47 5 [1, 2, 3]) 0 0) none =
      .error e :=
  ⟨by norm_num,
   c6_bitflip_detected 47 5 [1, 2, 3] 0 0 none (by norm_num) (by norm_num)
     (by decide) (by norm_num) (by norm_num)⟩

/-- C9: `_parse_build_date` returns no date when the input has fewer than 3
bytes or its last three bytes (day, month, year offset by 2000) do not form a
valid calendar date, and otherwise returns (2000+year, month, day); the block
ending 31 2 24 yields no date, the one ending 15 6 24 yields 2024-06-15, and
the invalid case returns `none` rather than propagating an error. -/
theorem c9_parse_build_date :
    (∀ data : List Nat, data.length < 3 → parse_build_date data = none) ∧
    (∀ data : List Nat, 3 ≤ data.length →
      parse_build_date data =
        (if isValidDate (2000 + data.getD (data.length - 1) 0)
            (data.getD (data.length - 2) 0) (data.getD (data.length - 3) 0) then
          some (2000 + data.getD (data.length - 1) 0,
            data.getD (data.length - 2) 0, data.getD (data.length - 3) 0)
        else none)) ∧
    parse_build_date [0, 31, 2, 24] = none ∧
    parse_build_date [0, 15, 6, 24] = some (2024, 6, 15) := by
  refine ⟨?_, ?_, by decide, by decide⟩
  · intro data h
    rw [parse_build_date, if_pos h]
  · intro data h
    rw [parse_build_date, if_neg (by omega)]

theorem c9_parse_build_date_witness :
    ([(1 : Nat), 2].length < 3) ∧ parse_build_date [1, 2] = none :=
  ⟨by norm_num, c9_parse_build_date.1 [1, 2] (by norm_num)⟩

/-- C10: the CRC of an entire built frame — body plus appended little-endian
checksum — is 0 (zero-residue validation property). -/
theorem c10_zero_residue (address command : Nat) (data : List Nat)
    (ha : address ≤ 255) (hc : command ≤ 255) (hd : ∀ b ∈ data, b ≤ 255) :
    crc16_modbus (build_frame address command data) = 0 :=
  crc16_modbus_build_frame_eq_zero address command data ha hc hd

theorem c10_zero_residue_witness :
    (47 : Nat) ≤ 255 ∧ crc16_modbus (build_frame 47 5 [1, 2, 3]) = 0 :=
  ⟨by norm_num,
   c10_zero_residue 47 5 [1, 2, 3] (by norm_num) (by norm_num) (by decide)⟩

/-- C7: invalid arguments surface immediately, with no transport interaction:
`open_session` with a password whose length is not 6 raises the source's
`ValueError` leaving the transport state untouched (no write, no retry), and
`read_energy_for_month` with a month outside 1..12 likewise fails before any
session preparation or exchange. -/
theorem c7_invalid_arguments_immediate :
    (∀ (cfg : ClientCfg) (access_level : Nat) (password : List Nat)
       (s : TransportState), password.length ≠ 6 →
      open_session cfg access_level password s =
        (.error (.valueError "password must contain exactly 6 bytes"), s)) ∧
    (∀ (cfg : ClientCfg) (month : Nat) (s : TransportState),
      month < 1 ∨ 12 < month →
      read_energy_for_month cfg month s =
        (.error (.valueError "month must be in range 1..12"), s)) := by
  constructor
  · intro cfg access_level password s h
    rw [open_session, if_pos h]
    rfl
  · intro cfg month s h
    rw [read_energy_for_month, if_pos h]
    rfl

theorem c7_invalid_arguments_immediate_witness :
    ([(2 : Nat), 2].length ≠ 6 ∧
      open_session ⟨47, 1⟩ 2 [2, 2] ⟨fun _ => [], []⟩ =
        (.error (.valueError "password must contain exactly 6 bytes"),
         ⟨fun _ => [], []⟩)) ∧
    ((13 : Nat) < 1 ∨ 12 < 13) ∧
      read_energy_for_month ⟨47, 1⟩ 13 ⟨fun _ => [], []⟩ =
        (.error (.valueError "month must be in range 1..12"),
         ⟨fun _ => [], []⟩) :=
  ⟨⟨by norm_num,
    c7_invalid_arguments_immediate.1 ⟨47, 1⟩ 2 [2, 2] ⟨fun _ => [], []⟩
      (by norm_num)⟩,
   ⟨by norm_num,
    c7_invalid_arguments_immediate.2 ⟨47, 1⟩ 13 ⟨fun _ => [], []⟩
      (by norm_num)⟩⟩

/-- C8: against a transport that answers every attempt with one fixed
well-formed frame, `read_energy_all_months` succeeds and writes exactly one
session-preparation pair — `open_session` at access level 0x01 with the
six-byte 0x01 password, then 0x08 with data 0x12 — followed by exactly 12×6
exchanges of command 0x05 with data `[0x30 + month, index]`, month ascending
1..12 and, within each month, index ascending 0..5, with no re-preparation
between months. -/
theorem c8_all_months_trace (address retries : Nat) (ha : address ≤ 255) :
    (read_energy_all_months ⟨address, retries⟩
        ⟨goodResponder address, []⟩).1 =
      .ok (((List.range 12).map (fun m => m + 1)).map
        (fun m => (m, zeroEnergy))) ∧
    (read_energy_all_months ⟨address, retries⟩
        ⟨goodResponder address, []⟩).2.writes =
      [build_frame address 0x01 [0x01, 0x01, 0x01, 0x01, 0x01, 0x01, 0x01],
       build_frame address 0x08 [0x12]] ++
      ((List.range 12).map (fun m => m + 1)).flatMap (fun month =>
        (List.range 6).map (fun index =>
          build_frame address 0x05 [0x30 + month, index])) := by
  have hm : ∀ m ∈ (List.range 12).map (fun m => m + 1), 0x30 + m ≤ 255 := by
    decide
  rw [read_energy_all_months,
    mbind_ok (prepare_energy_session_good address retries ha []),
    allMonthsGo_good address retries ha _ hm []]
  constructor
  · rfl
  · simp

theorem c8_all_months_trace_witness :
    (47 : Nat) ≤ 255 ∧
    (read_energy_all_months ⟨47, 1⟩ ⟨goodResponder 47, []⟩).2.writes =
      [build_frame 47 0x01 [0x01, 0x01, 0x01, 0x01, 0x01, 0x01, 0x01],
       build_frame 47 0x08 [0x12]] ++
      ((List.range 12).map (fun m => m + 1)).flatMap (fun month =>
        (List.range 6).map (fun index =>
          build_frame 47 0x05 [0x30 + month, index])) :=
  ⟨by norm_num, (c8_all_months_trace 47 1 (by norm_num)).2⟩

/-- C4 as written is false: the source classifies the failure by the LAST
attempt's reply only.  Concretely, with address 0, command 0, retries 1 and a
transport that delivers 5 unparseable bytes on the first attempt and nothing
on the second, some attempt received ≥ 4 bytes that never parsed, yet
`_exchange` raises `MercuryNoResponseError` (and not the general
`MercuryTransportError` with the hex dump that the claim requires). -/
def respBadThenSilent : Nat → List Nat :=
  fun k => if k = 0 then [1, 2, 3, 4, 5] else []

theorem c4_counterexample :
    4 ≤ (respBadThenSilent 0).length ∧
    (parse_frame (respBadThenSilent 0) (some 0)).isOk = false ∧
    (respBadThenSilent 1).length < 4 ∧
    (exchange 0 0 [] 1 ⟨respBadThenSilent, []⟩).1 =
      .error (.noResponse 0 0 2) := by
  refine ⟨by norm_num [respBadThenSilent], by decide, by decide, by decide⟩

/-- C4 (amended): when no attempt's received bytes parse as a valid frame
with the expected address, `_exchange` raises `MercuryNoResponseError`
(naming the address, command and attempt count) if and only if the FINAL
(`retries + 1`-th) attempt received fewer than 4 bytes — in particular a
transport that always returns 0 bytes yields `MercuryNoResponseError` —
and otherwise it raises `MercuryTransportError` whose message includes the
hex rendering of the final attempt's raw bytes. -/
theorem c4_exchange_failure_classification (address command : Nat)
    (data : List Nat) (retries : Nat) (resp : Nat → List Nat)
    (ha : address ≤ 255) (hc : command ≤ 255)
    (hfail : ∀ k, k ≤ retries →
      (parse_frame (resp k) (some address)).isOk = false) :
    ((resp retries).length < 4 →
      (exchange address command data retries ⟨resp, []⟩).1 =
        .error (.noResponse address command (retries + 1))) ∧
    (4 ≤ (resp retries).length →
      ∃ e, parse_frame (resp retries) (some address) = .error e ∧
        (exchange address command data retries ⟨resp, []⟩).1 =
          .error (.transportInvalid command (resp retries) (some e)) ∧
        ∃ pre post,
          clientErrorMessage (.transportInvalid command (resp retries) (some e)) =
            pre ++ hexRender (resp retries) ++ post) := by
  have h := exchange_fail address command data retries resp ha hc hfail
  refine ⟨h.1, fun h4 => ?_⟩
  obtain ⟨e, hpe⟩ := except_isOk_false _ (hfail retries (Nat.le_refl _))
  exact ⟨e, hpe, h.2 e hpe h4,
    "invalid response for command 0x" ++ hex2Upper command ++ ": ",
    " (" ++ protocolErrorMessage e ++ ")", rfl⟩

theorem c4_exchange_failure_classification_witness :
    ((fun _ => [] : Nat → List Nat) 0).length < 4 ∧
    (exchange 0 0 [] 0 ⟨fun _ => [], []⟩).1 = .error (.noResponse 0 0 1) :=
  ⟨by norm_num,
   (c4_exchange_failure_classification 0 0 [] 0 (fun _ => []) (by norm_num)
     (by norm_num) (fun k _ => by rfl)).1 (by norm_num)⟩

end Mercury230
